import Mathlib

/-!
Shallow embedding of the scan driver of `seeeverything/gitleaks`
(package `scan`, file `src/unnamed/part_000`), covering `Scan`,
`scanEmpty`, `scanUncommitted`, `getStagedChanges`, `scanPatch`,
`scanCommit`, `scanCommitPatches`, `scanFilesAtCommit`, `depthReached`
and `emptyCommit`.

Modelling conventions:
- Git hashes are opaque strings (`plumbing.NewHash` is the identity on
  them); the zero hash is the 40-zero string.
- The git object store, the worktree filesystem, the porcelain calls and
  the diff library are external collaborators: they appear as oracle
  fields of `Repo` (`commitObject`, `patchOf`, `wtOpen`, `dmpDiff`, ...)
  whose results the embedded functions consume exactly as the source
  consumes the library's return values.
- Fallible calls return `Except Err` / `Option`; a Go panic is made
  explicit as an outcome constructor, and a deferred `recover` is
  explicit control flow.
- `CheckRules` is the external matcher: its only observable effect here
  is the ordered list of bundles handed to it, which every embedded scan
  function returns.
- Wall-clock state (`timeoutReached`, `setupTimeout`) and helpers whose
  code is outside the provided source (`isCommitAllowListed`,
  `loadRepoConfig`, `getLogOptions`) are modelled from the spec as
  oracle fields or as the spec's described behaviour.
-/

namespace Gitleaks

/-- Errors are modelled by their message strings. -/
abbrev Err := String

/-- Decidable equality for `Except`, needed to evaluate concrete scan
outcomes with `decide`. -/
instance {ε α : Type} [DecidableEq ε] [DecidableEq α] : DecidableEq (Except ε α)
  | .ok a, .ok b =>
    if h : a = b then .isTrue (by rw [h]) else .isFalse (by simp [h])
  | .ok _, .error _ => .isFalse (by simp)
  | .error _, .ok _ => .isFalse (by simp)
  | .error e, .error e2 =>
    if h : e = e2 then .isTrue (by rw [h]) else .isFalse (by simp [h])

/-- go-git `fdiff.Operation`: Equal, Add, Delete (Equal is the zero value). -/
inductive Operation
  | equal
  | add
  | delete
deriving DecidableEq, Repr

/-- The scan-type tag (`patchScan`, `uncommittedScan`, `commitScan`),
src lines 44-50. -/
inductive ScanType
  | patchScan
  | uncommittedScan
  | commitScan
deriving DecidableEq, Repr

/-- go-git `object.Signature`; the timestamp is Unix seconds, and
`time.Unix(0,0).UTC()` is second 0. -/
structure Signature where
  name : String
  email : String
  whenSec : Int
deriving DecidableEq, Repr

/-- A file reachable from a commit tree (go-git `object.File`), carrying
the answers the object store would give: `IsBinary()` returns the pair
(`isBinary`, `isBinaryErr`), `Contents()` returns `contents`. -/
structure FileObj where
  name : String
  isBinary : Bool
  isBinaryErr : Option Err
  contents : Except Err String
deriving DecidableEq, Repr

/-- go-git `object.Commit`, restricted to the fields the scan driver
reads. `filesErr`/`files` answer `c.Files()`, `treeErr` is the error of
`c.Tree()` (the tree's files are `files` again). -/
structure CommitObj where
  hash : String
  message : String
  author : Signature
  parentHashes : List String
  filesErr : Option Err := none
  files : List FileObj := []
  treeErr : Option Err := none
deriving DecidableEq, Repr

/-- One chunk of a file patch (go-git `fdiff.Chunk`): its text and type. -/
structure Chunk where
  content : String
  typ : Operation
deriving DecidableEq, Repr

/-- One file of a patch (go-git `fdiff.FilePatch`): binary flag, the
`from`/`to` file paths (`none` when that side is nil), and the chunks. -/
structure FilePatch where
  isBinary : Bool
  fromPath : Option String
  toPath : Option String
  chunks : List Chunk
deriving DecidableEq, Repr

/-- go-git `object.Patch`: `text` is `patch.String()`, `filePatches` is
`patch.FilePatches()`. -/
structure PatchObj where
  text : String
  filePatches : List FilePatch
deriving DecidableEq, Repr

/-- Outcome of `parent.Patch(c)`: success, an error return, or a panic
(the known sergi/go-diff defect the source's `recover` barriers absorb). -/
inductive PatchOutcome
  | ok (p : PatchObj)
  | genErr
  | panics
deriving DecidableEq, Repr

/-- The `Bundle` handed to `CheckRules`, src lines 26-36. Defaults are
Go's zero values for the fields a given path leaves unset. -/
structure Bundle where
  commit : CommitObj
  patch : String := ""
  content : String := ""
  filePath : String := ""
  operation : Operation := .equal
  scanType : ScanType
deriving DecidableEq, Repr

/-- The part of the gitleaks config the scan driver reads: the commit
allowlist. -/
structure Config where
  allowlistCommits : List String
deriving DecidableEq, Repr

/-- The option bag (`Manager.Opts`) fields the scan driver reads. -/
structure Options where
  commit : String := ""
  filesAtCommit : String := ""
  commits : String := ""
  commitsFile : String := ""
  commitTo : String := ""
  depth : Int := 0
  threads : Int := 0
  deletion : Bool := false
  repoConfig : Bool := false
deriving DecidableEq, Repr

/-- Result of `repo.Head()`: a resolved hash, the sentinel
`plumbing.ErrReferenceNotFound`, or another error. -/
inductive HeadRes
  | ok (hash : String)
  | notFound
  | err (e : Err)
deriving DecidableEq, Repr

/-- A worktree file as `wt.Filesystem.Open` + `io.Copy` + `Name()` see
it: `copyRes` is the contents or the copy error, `name` is
`workTreeFile.Name()`. -/
structure WtFile where
  name : String
  copyRes : Except Err String
deriving DecidableEq, Repr

/-- diffmatchpatch diff segment types. -/
inductive DiffType
  | delete
  | insert
  | equal
deriving DecidableEq, Repr

/-- One segment of a diffmatchpatch diff. -/
structure DiffSeg where
  typ : DiffType
  text : String
deriving DecidableEq, Repr

/-- The `Repo` receiver plus the external collaborators it reaches
(object store, worktree, porcelain, diff library), each as an oracle
field. `timeout` models `timeoutReached()` as a flag fixed for the scan
(the deadline either is or is not exceeded); `setupTimeoutErr`,
`loadRepoConfigRes`, `logOptsErr`, `logErr` and `commitsFileLines` model
the calls whose code is outside the provided source. -/
structure Repo where
  name : String
  opts : Options
  config : Config
  loadRepoConfigRes : Except Err Config := .error "no repo config"
  setupTimeoutErr : Option Err := none
  timeout : Bool := false
  repositoryNil : Bool := false
  headRes : HeadRes := .notFound
  commitObject : String → Option CommitObj := fun _ => none
  patchOf : String → String → PatchOutcome := fun _ _ => .genErr
  logCommits : List (Option CommitObj) := []
  logOptsErr : Option Err := none
  logErr : Option Err := none
  commitsFileLines : Except Err (List String) := .error "open"
  worktreeErr : Option Err := none
  wtStatusFiles : Except Err (List String) := .ok []
  wtOpen : String → Option WtFile := fun _ => none
  stagedDiffOutput : Option String := none
  dmpDiff : String → String → List DiffSeg := fun _ _ => []

/-- The 40-zero string of `plumbing.Hash{}`. -/
def zeroHash : String := "0000000000000000000000000000000000000000"

/-- Modelled from the spec: `isCommitAllowListed` is defined outside the
provided source; the spec describes the allowlist as a configured set of
commit hashes exempt from matching, so the check is membership of the
hash in the configured list. -/
def isCommitAllowListed (hash : String) (allowlist : List String) : Bool :=
  allowlist.contains hash

/-- src lines 528-535: `depthReached` is true when a non-zero `Depth`
equals the commit counter. -/
def Repo.depthReached (repo : Repo) (i : Nat) : Bool :=
  repo.opts.depth != 0 && repo.opts.depth == (i : Int)

/-- A producer's `Option Err` turned into the function result Go
returns (`nil` = success). -/
def errToRes : Option Err → Except Err Unit
  | none => .ok ()
  | some e => .error e

/-- src lines 537-548: `emptyCommit` for uncommitted scans. -/
def emptyCommit : CommitObj :=
  { hash := zeroHash
    message := "***STAGED CHANGES***"
    author := { name := "", email := "", whenSec := 0 }
    parentHashes := [] }

/-- The `fIter.ForEach` body of `scanFilesAtCommit`, src lines 503-524:
skip binary files (and everything once the timeout fired), abort on an
`IsBinary` or `Contents` error, otherwise bundle the full contents. -/
def filesLoop (repo : Repo) (c : CommitObj) : List FileObj → List Bundle × Option Err
  | [] => ([], none)
  | f :: fs =>
    if f.isBinary || repo.timeout then filesLoop repo c fs
    else
      match f.isBinaryErr with
      | some e => ([], some e)
      | none =>
        match f.contents with
        | .error e => ([], some e)
        | .ok content =>
          let r := filesLoop repo c fs
          ({ commit := c, content := content, filePath := f.name
             scanType := .commitScan, operation := .add } :: r.1, r.2)

/-- src lines 497-526: `scanFilesAtCommit`. -/
def scanFilesAtCommit (c : CommitObj) (repo : Repo) : List Bundle × Option Err :=
  match c.filesErr with
  | some e => ([], some e)
  | none => filesLoop repo c c.files

/-- The inner chunk loop of `scanPatch`, src lines 413-428: bundle each
Add chunk (and Delete chunks when `Deletion` is set), choosing the file
path from the `from` side, else the `to` side, else `"???"`. -/
def chunksLoop (repo : Repo) (base : Bundle) (f : FilePatch) : List Chunk → List Bundle
  | [] => []
  | ch :: chs =>
    if ch.typ == .add || (repo.opts.deletion && ch.typ == .delete) then
      { base with
        content := ch.content
        operation := ch.typ
        filePath :=
          match f.fromPath with
          | some p => p
          | none =>
            match f.toPath with
            | some p => p
            | none => "???" } :: chunksLoop repo base f chs
    else chunksLoop repo base f chs

/-- The outer file loop of `scanPatch`, src lines 406-430: stop
altogether when the timeout fired, skip binary file patches. -/
def filePatchesLoop (repo : Repo) (base : Bundle) : List FilePatch → List Bundle
  | [] => []
  | f :: fs =>
    if repo.timeout then []
    else if f.isBinary then filePatchesLoop repo base fs
    else chunksLoop repo base f f.chunks ++ filePatchesLoop repo base fs

/-- src lines 400-431: `scanPatch`. The base bundle carries the commit,
`patch.String()` and the `patchScan` tag. -/
def scanPatch (patch : PatchObj) (c : CommitObj) (repo : Repo) : List Bundle :=
  filePatchesLoop repo { commit := c, patch := patch.text, scanType := .patchScan }
    patch.filePatches

/-- What running one history-walk worker yields. `slotReleased`/`wgDone`
are the deferred `<-semaphore; wg.Done()` of src lines 179-182;
`panicPropagated` is true when the body panicked and no `recover` in the
goroutine's deferred functions absorbed it. -/
structure WorkerOutcome where
  bundles : List Bundle
  slotReleased : Bool
  wgDone : Bool
  panicPropagated : Bool
deriving DecidableEq, Repr

/-- The goroutine body of src lines 178-184. Its only deferred function
releases the semaphore slot and calls `wg.Done()`; it contains no
`recover`. When `Patch` failed (src line 171 only logs the error) the
worker receives a nil patch and `patch.String()` inside `scanPatch`
dereferences nil: the body panics, the deferred cleanup still runs, and
the panic leaves the goroutine unrecovered. -/
def runWorker (patch? : Option PatchObj) (c : CommitObj) (repo : Repo) : WorkerOutcome :=
  match patch? with
  | none =>
    { bundles := [], slotReleased := true, wgDone := true, panicPropagated := true }
  | some p =>
    { bundles := scanPatch p c repo, slotReleased := true, wgDone := true
      panicPropagated := false }

/-- How the `cIter.ForEach` of the history walk ended: the list was
exhausted, `storer.ErrStop` was returned, or the callback returned an
error (which `ForEach` hands back to `Scan`). -/
inductive WalkEnd
  | completed
  | stopped
  | errored (e : Err)
deriving DecidableEq, Repr

/-- Observable result of the history walk, src lines 119-192: the final
commit counter `cc`, every bundle handed to `CheckRules`, the hashes of
the commits handed off for scanning (a spawned worker or the inline root
file scan), whether an unrecovered worker panic killed the process, and
how the iteration ended. -/
structure WalkResult where
  cc : Nat
  bundles : List Bundle
  dispatched : List String
  crashed : Bool
  ending : WalkEnd
deriving DecidableEq, Repr

/-- The `cIter.ForEach` of `Scan`, src lines 122-190, over the commits
the log iterator yields (in log order), threading the commit counter.
Per commit: stop on a nil commit, the timeout or the depth cap; skip
allowlisted commits without counting; scan a root commit's files inline
(counting it, aborting the iteration on error); otherwise count it,
resolve the first parent (error aborts the iteration), generate the
patch inside the producer-side `recover` barrier (a panic is absorbed
and the callback returns nil), hand the commit and patch (nil when
generation failed, src line 171 only logs) to a worker, and stop when
the commit's hash equals `CommitTo`. -/
def walkAux (repo : Repo) (cfg : Config) : Nat → List (Option CommitObj) → WalkResult
  | cc, [] => ⟨cc, [], [], false, .completed⟩
  | cc, none :: _ => ⟨cc, [], [], false, .stopped⟩
  | cc, some c :: rest =>
    if repo.timeout || repo.depthReached cc then ⟨cc, [], [], false, .stopped⟩
    else if isCommitAllowListed c.hash cfg.allowlistCommits then
      walkAux repo cfg cc rest
    else
      match c.parentHashes with
      | [] =>
        match scanFilesAtCommit c repo with
        | (bs, some e) => ⟨cc + 1, bs, [c.hash], false, .errored e⟩
        | (bs, none) =>
          let r := walkAux repo cfg (cc + 1) rest
          ⟨r.cc, bs ++ r.bundles, c.hash :: r.dispatched, r.crashed, r.ending⟩
      | ph :: _ =>
        match repo.commitObject ph with
        | none => ⟨cc + 1, [], [], false, .errored "object not found"⟩
        | some parent =>
          if repo.timeout then walkAux repo cfg (cc + 1) rest
          else
            match repo.patchOf parent.hash c.hash with
            | .panics => walkAux repo cfg (cc + 1) rest
            | .genErr =>
              let w := runWorker none c repo
              if c.hash == repo.opts.commitTo then
                ⟨cc + 1, w.bundles, [c.hash], w.panicPropagated, .stopped⟩
              else
                let r := walkAux repo cfg (cc + 1) rest
                ⟨r.cc, w.bundles ++ r.bundles, c.hash :: r.dispatched,
                  w.panicPropagated || r.crashed, r.ending⟩
            | .ok p =>
              let w := runWorker (some p) c repo
              if c.hash == repo.opts.commitTo then
                ⟨cc + 1, w.bundles, [c.hash], w.panicPropagated, .stopped⟩
              else
                let r := walkAux repo cfg (cc + 1) rest
                ⟨r.cc, w.bundles ++ r.bundles, c.hash :: r.dispatched,
                  w.panicPropagated || r.crashed, r.ending⟩

/-- src lines 436-451: `scanCommit` resolves `"latest"` through `Head()`,
increments the commit counter once, looks the hash up in the object
store and runs the given commit scanner. Returns (bundles, counter
increment, error). -/
def scanCommit (commit : String) (repo : Repo)
    (f : CommitObj → Repo → List Bundle × Option Err) : List Bundle × Nat × Option Err :=
  let resolved : Except Err String :=
    if commit == "latest" then
      match repo.headRes with
      | .ok h => .ok h
      | .notFound => .error "reference not found"
      | .err e => .error e
    else .ok commit
  match resolved with
  | .error e => ([], 0, some e)
  | .ok cm =>
    match repo.commitObject cm with
    | none => ([], 1, some "object not found")
    | some c =>
      let r := f c repo
      (r.1, 1, r.2)

/-- The `c.Parents().ForEach` of `scanCommitPatches`, src lines 465-490:
resolve each parent (an iterator resolution failure aborts with its
error), and inside the `recover` barrier generate the parent→c patch: a
panic is absorbed (that parent contributes nothing), an error return
aborts with "could not generate Patch", success scans the patch inline. -/
def parentsLoop (repo : Repo) (c : CommitObj) : List String → List Bundle × Option Err
  | [] => ([], none)
  | ph :: phs =>
    match repo.commitObject ph with
    | none => ([], some "object not found")
    | some parent =>
      if repo.timeout then parentsLoop repo c phs
      else
        match repo.patchOf parent.hash c.hash with
        | .panics => parentsLoop repo c phs
        | .genErr => ([], some "could not generate Patch")
        | .ok p =>
          let r := parentsLoop repo c phs
          (scanPatch p c repo ++ r.1, r.2)

/-- src lines 457-491: `scanCommitPatches`. A root commit's files are
scanned first (its error returned); then every parent's patch is
scanned. -/
def scanCommitPatches (c : CommitObj) (repo : Repo) : List Bundle × Option Err :=
  match (if c.parentHashes.isEmpty then scanFilesAtCommit c repo else ([], none)) with
  | (bs, some e) => (bs, some e)
  | (bs, none) =>
    let r := parentsLoop repo c c.parentHashes
    (bs ++ r.1, r.2)

/-- The loop of the `Commits`/`CommitsFile` modes, src lines 84-107: run
`scanCommit` with `scanCommitPatches` on each token, stopping at the
first error. Returns (bundles, counter increments, error). -/
def scanCommitList (repo : Repo) : List String → List Bundle × Nat × Option Err
  | [] => ([], 0, none)
  | cm :: cms =>
    let r := scanCommit cm repo scanCommitPatches
    match r.2.2 with
    | some e => (r.1, r.2.1, some e)
    | none =>
      let rs := scanCommitList repo cms
      (r.1 ++ rs.1, r.2.1 + rs.2.1, rs.2.2)

/-- Observable result of `Scan()`: its return value, the bundles handed
to `CheckRules`, the total the manager's commit counter was incremented
by, and whether an unrecovered worker panic killed the process. -/
structure ScanOutcome where
  result : Except Err Unit
  bundles : List Bundle
  commitsAdded : Nat
  crashed : Bool
deriving DecidableEq, Repr

/-- src lines 55-196: `Scan`. Setup (timeout, nil-repo guard, optional
repo-local config), then the first matching mode wins: `Commit`,
`FilesAtCommit`, `Commits`, `CommitsFile`, else the history walk. The
walk's `ForEach` result is assigned to `err` (src line 122) but `Scan`
ends with `return nil` (src line 195). -/
def Scan (repo : Repo) : ScanOutcome :=
  match repo.setupTimeoutErr with
  | some e => ⟨.error e, [], 0, false⟩
  | none =>
    if repo.repositoryNil then ⟨.error (repo.name ++ " repo is empty"), [], 0, false⟩
    else
      match (if repo.opts.repoConfig then repo.loadRepoConfigRes else .ok repo.config) with
      | .error e => ⟨.error e, [], 0, false⟩
      | .ok cfg =>
        if repo.opts.commit != "" then
          let r := scanCommit repo.opts.commit repo scanCommitPatches
          ⟨errToRes r.2.2, r.1, r.2.1, false⟩
        else if repo.opts.filesAtCommit != "" then
          let r := scanCommit repo.opts.filesAtCommit repo scanFilesAtCommit
          ⟨errToRes r.2.2, r.1, r.2.1, false⟩
        else if repo.opts.commits != "" then
          let r := scanCommitList repo (repo.opts.commits.splitOn ",")
          ⟨errToRes r.2.2, r.1, r.2.1, false⟩
        else if repo.opts.commitsFile != "" then
          match repo.commitsFileLines with
          | .error e => ⟨.error e, [], 0, false⟩
          | .ok lines =>
            let r := scanCommitList repo lines
            ⟨errToRes r.2.2, r.1, r.2.1, false⟩
        else
          match repo.logOptsErr with
          | some e => ⟨.error e, [], 0, false⟩
          | none =>
            match repo.logErr with
            | some e => ⟨.error e, [], 0, false⟩
            | none =>
              let r := walkAux repo cfg 0 repo.logCommits
              ⟨.ok (), r.bundles, r.cc, r.crashed⟩

/-- Go's `strings.Split` for a one-character separator, on the string's
characters. `strings.Split("", sep)` is `[""]`, matching the base case. -/
def goSplit (sep : Char) : List Char → List (List Char)
  | [] => [[]]
  | ch :: cs =>
    match goSplit sep cs with
    | [] => [[]]
    | g :: gs => if ch = sep then [] :: g :: gs else (ch :: g) :: gs

/-- The parsing loop of `getStagedChanges`, src lines 381-391: for each
nonempty line of the porcelain output, split on tab; the guard only
checks the split is nonempty (it always is) before reading element 1, so
a nonempty line without a tab indexes out of range — a panic, modelled
as `none`. -/
def parseStagedLoop : List (List Char) → Option (List String)
  | [] => some []
  | line :: rest =>
    if line.length != 0 then
      let fileStatusAndName := goSplit '\t' line
      if fileStatusAndName.length > 0 then
        match fileStatusAndName[1]? with
        | none => none
        | some file =>
          match parseStagedLoop rest with
          | none => none
          | some files => some (String.mk file :: files)
      else parseStagedLoop rest
    else parseStagedLoop rest

/-- src lines 378-391: split the output of
`git diff --cached --name-status --diff-filter=ACM` on newlines and
parse each line; `none` is the index-out-of-range panic. -/
def parseStagedOutput (output : String) : Option (List String) :=
  parseStagedLoop (goSplit '\n' output.toList)

/-- How `getStagedChanges` ends: the porcelain command failed and
`log.Fatal` exited the process, the parsing panicked, or the staged file
names were returned (its returned `err` is then nil). -/
inductive StagedRes
  | fatal
  | panicked
  | ok (files : List String)
deriving DecidableEq, Repr

/-- src lines 366-393: `getStagedChanges`. -/
def getStagedChanges (repo : Repo) : StagedRes :=
  match repo.stagedDiffOutput with
  | none => .fatal
  | some output =>
    match parseStagedOutput output with
    | none => .panicked
    | some files => .ok files

/-- The diff-contents accumulation of src lines 313-317: append
`Sprintf("%s\n", d.Text)` for every insertion segment, in order. -/
def goDiffContents : List DiffSeg → String
  | [] => ""
  | d :: ds => (if d.typ = .insert then d.text ++ "\n" else "") ++ goDiffContents ds

/-- The spec's wording of the staged content: the concatenation, in
order, of the text of every insertion segment, each followed by a
newline. -/
def insertionsJoined (ds : List DiffSeg) : String :=
  String.join ((ds.filter (fun d => d.typ == .insert)).map (fun d => d.text ++ "\n"))

/-- src lines 295-308: previous contents and file name from the HEAD
tree. A failed `prevTree.File(fn)` lookup means empty previous contents
(the worktree name stands); a `Contents()` error aborts; otherwise the
worktree name is kept unless it is empty, in which case the tree file's
name is used. -/
def stagedPrevResolved (c : CommitObj) (fn wtName : String) : Except Err (String × String) :=
  match c.files.find? (fun tf => tf.name == fn) with
  | none => .ok ("", wtName)
  | some tf =>
    match tf.contents with
    | .error e => .error e
    | .ok prev => .ok (prev, if wtName == "" then tf.name else wtName)

/-- The per-file loop of `scanUncommitted`, src lines 277-324: skip a
file whose worktree open fails, abort on a copy error or a HEAD-tree
`Contents()` error, otherwise bundle the insertion segments of the
semantic-cleanup diff between previous and current contents under the
sentinel commit `c`. -/
def stagedLoop (repo : Repo) (c : CommitObj) : List String → List Bundle × Option Err
  | [] => ([], none)
  | fn :: fns =>
    match repo.wtOpen fn with
    | none => stagedLoop repo c fns
    | some wf =>
      match wf.copyRes with
      | .error e => ([], some e)
      | .ok cur =>
        match stagedPrevResolved c fn wf.name with
        | .error e => ([], some e)
        | .ok pr =>
          let r := stagedLoop repo c fns
          ({ commit := c, content := goDiffContents (repo.dmpDiff pr.1 cur)
             filePath := pr.2, scanType := .uncommittedScan } :: r.1, r.2)

/-- Observable result of `scanEmpty`/`scanUncommitted`: the bundles
handed to `CheckRules`, the return value, and whether the process died
first (`log.Fatal` on porcelain failure, or the parsing panic). -/
structure UncommittedOutcome where
  bundles : List Bundle
  result : Except Err Unit
  fatalExit : Bool
  panicked : Bool
deriving DecidableEq, Repr

/-- The per-file loop of `scanEmpty`, src lines 210-225: skip a file
whose worktree open fails, abort on a copy error, otherwise bundle the
full contents under `emptyCommit`. -/
def scanEmptyLoop (repo : Repo) : List String → List Bundle × Option Err
  | [] => ([], none)
  | fn :: fns =>
    match repo.wtOpen fn with
    | none => scanEmptyLoop repo fns
    | some wf =>
      match wf.copyRes with
      | .error e => ([], some e)
      | .ok content =>
        let r := scanEmptyLoop repo fns
        ({ commit := emptyCommit, content := content, filePath := wf.name
           scanType := .uncommittedScan } :: r.1, r.2)

/-- src lines 198-228: `scanEmpty`. -/
def scanEmpty (repo : Repo) : UncommittedOutcome :=
  match repo.worktreeErr with
  | some e => ⟨[], .error e, false, false⟩
  | none =>
    match repo.wtStatusFiles with
    | .error e => ⟨[], .error e, false, false⟩
    | .ok fns =>
      let r := scanEmptyLoop repo fns
      ⟨r.1, errToRes r.2, false, false⟩

/-- The mutation of src lines 260-265: zero hash, the staged-changes
message, empty author name/email and the Unix epoch (UTC) timestamp.
Every other field (in particular the tree) is kept. -/
def sentinelize (c : CommitObj) : CommitObj :=
  { c with
    hash := zeroHash
    message := "***STAGED CHANGES***"
    author := { name := "", email := "", whenSec := 0 } }

/-- src lines 232-331: `scanUncommitted`. Load the repo config if asked,
install the timeout, resolve HEAD (`ErrReferenceNotFound` falls back to
`scanEmpty`), mutate the HEAD commit into the staged sentinel, resolve
its tree and the worktree, obtain the staged files from the porcelain
call, and run the per-file loop. -/
def scanUncommitted (repo : Repo) : UncommittedOutcome :=
  match (if repo.opts.repoConfig then repo.loadRepoConfigRes else .ok repo.config) with
  | .error e => ⟨[], .error e, false, false⟩
  | .ok _ =>
    match repo.setupTimeoutErr with
    | some e => ⟨[], .error e, false, false⟩
    | none =>
      match repo.headRes with
      | .notFound => scanEmpty repo
      | .err e => ⟨[], .error e, false, false⟩
      | .ok h =>
        match repo.commitObject h with
        | none => ⟨[], .error "object not found", false, false⟩
        | some c0 =>
          let c := sentinelize c0
          match c.treeErr with
          | some e => ⟨[], .error e, false, false⟩
          | none =>
            match repo.worktreeErr with
            | some e => ⟨[], .error e, false, false⟩
            | none =>
              match getStagedChanges repo with
              | .fatal => ⟨[], .ok (), true, false⟩
              | .panicked => ⟨[], .ok (), false, true⟩
              | .ok files =>
                let r := stagedLoop repo c files
                ⟨r.1, errToRes r.2, false, false⟩

/-- A commit the history walk passes through without stopping or
erroring: its hash is not `CommitTo`, and (unless it is allowlisted) a
root commit's file scan succeeds while a non-root commit's first parent
resolves. -/
def passesThrough (repo : Repo) (cfg : Config) (c : CommitObj) : Bool :=
  c.hash != repo.opts.commitTo &&
    (isCommitAllowListed c.hash cfg.allowlistCommits ||
      match c.parentHashes with
      | [] => (scanFilesAtCommit c repo).2 == none
      | ph :: _ => (repo.commitObject ph).isSome)

/-- The number of commits of the list that are not allowlisted. -/
def countNonAllowlisted (cfg : Config) (cs : List CommitObj) : Nat :=
  (cs.filter (fun c => !isCommitAllowListed c.hash cfg.allowlistCommits)).length

/-! ### Concrete fixtures used by witnesses and counterexamples -/

/-- A non-binary file with the given name and contents. -/
def okFile (n s : String) : FileObj :=
  { name := n, isBinary := false, isBinaryErr := none, contents := .ok s }

/-- A root commit with the given hash and tree files. -/
def rootC (h : String) (fs : List FileObj) : CommitObj :=
  { hash := h, message := "msg", author := ⟨"an", "ae", 5⟩, parentHashes := []
    files := fs }

/-- A repository skeleton with empty options and an empty allowlist. -/
def baseRepo : Repo :=
  { name := "r", opts := {}, config := ⟨[]⟩ }

/-- A HEAD commit whose tree holds `foo.txt` with contents "a\nb\n". -/
def headCommit : CommitObj :=
  { hash := "H", message := "orig", author := ⟨"n", "e", 9⟩, parentHashes := []
    files := [okFile "foo.txt" "a\nb\n"] }

/-- A repository with one staged modification of `foo.txt`. -/
def stagedRepo : Repo := { baseRepo with
  headRes := .ok "H"
  commitObject := fun h => if h = "H" then some headCommit else none
  stagedDiffOutput := some "M\tfoo.txt"
  wtOpen := fun fn =>
    if fn = "foo.txt" then some ⟨"foo.txt", .ok "a\nSECRET\nb\n"⟩ else none
  dmpDiff := fun _ _ => [⟨.equal, "a\n"⟩, ⟨.insert, "SECRET\n"⟩, ⟨.equal, "b\n"⟩] }

/-- The bundle `scanUncommitted stagedRepo` dispatches. -/
def stagedBundle : Bundle :=
  { commit := sentinelize headCommit, content := "SECRET\n\n", filePath := "foo.txt"
    scanType := .uncommittedScan }

/-- A commit whose tree file `prevbad` fails to yield its contents. -/
def c9Commit : CommitObj :=
  { hash := "H", message := "m", author := ⟨"", "", 0⟩, parentHashes := []
    files := [{ name := "prevbad", isBinary := false, isBinaryErr := none
                contents := .error "prev boom" }] }

/-- A repository whose worktree fails to open `gone`, fails to copy
`bad`, and opens `prevbad` fine. -/
def c9Repo : Repo := { baseRepo with
  wtOpen := fun fn =>
    if fn = "gone" then none
    else if fn = "bad" then some ⟨"bad", .error "copy boom"⟩
    else if fn = "prevbad" then some ⟨"prevbad", .ok "cur"⟩
    else none }

/-- A non-root commit whose first parent is absent from the object
store: `c.Parent(0)` fails. -/
def orphanCommit : CommitObj :=
  { hash := "hb", message := "m", author := ⟨"", "", 0⟩, parentHashes := ["missing"] }

/-- A history whose first commit's parent fails to resolve, followed by
a scannable root commit. -/
def c1CexRepo : Repo := { baseRepo with
  logCommits := [some orphanCommit, some (rootC "h2" [okFile "f2" "y"])] }

/-- A non-root commit whose parent `p0` resolves. -/
def genErrCommit : CommitObj :=
  { hash := "hg", message := "m", author := ⟨"", "", 0⟩, parentHashes := ["p0"] }

/-- A history walk in which patch generation returns an error: the
worker is handed a nil patch. -/
def c2CexRepo : Repo := { baseRepo with
  commitObject := fun h => if h = "p0" then some (rootC "p0" []) else none
  patchOf := fun _ _ => .genErr
  logCommits := [some genErrCommit] }

/-- A history walk in which patch generation panics on the producer
thread (absorbed by the `recover` barrier). -/
def panicsRepo : Repo := { baseRepo with
  commitObject := fun h => if h = "p0" then some (rootC "p0" []) else none
  patchOf := fun _ _ => .panics
  logCommits := [some genErrCommit] }

/-- A single-commit scan (`--commit=A`) of an allowlisted root commit. -/
def c3CexRepo : Repo := { baseRepo with
  config := ⟨["A"]⟩
  opts := { commit := "A" }
  commitObject := fun h =>
    if h = "A" then some (rootC "A" [okFile "f" "sekret"]) else none }

/-- A history walk whose first commit is allowlisted. -/
def c3WitRepo : Repo := { baseRepo with
  config := ⟨["h1"]⟩
  logCommits := [some (rootC "h1" [okFile "f1" "x"]), some (rootC "h2" [okFile "f2" "y"])] }

/-- The bundle the walk of `c3WitRepo` dispatches for commit `h2`. -/
def h2Bundle : Bundle :=
  { commit := rootC "h2" [okFile "f2" "y"], content := "y", filePath := "f2"
    operation := .add, scanType := .commitScan }

/-- Depth 2 over a history whose first commit's parent fails to resolve:
only one commit is entered before the walk aborts. -/
def c5CexRepo : Repo := { baseRepo with
  opts := { depth := 2 }
  logCommits := [some orphanCommit, some (rootC "h2" []), some (rootC "h3" [])] }

/-- Depth 2 over three clean root commits. -/
def c5WitRepo : Repo := { baseRepo with
  opts := { depth := 2 }
  logCommits := [some (rootC "c1" []), some (rootC "c2" []), some (rootC "c3" [])] }

/-- `CommitTo` pointing at a root commit: the stop check sits on the
non-root path only, so the walk continues past it. -/
def c4CexRepo : Repo := { baseRepo with
  opts := { commitTo := "h1" }
  logCommits := [some (rootC "h1" []), some (rootC "h2" [okFile "f2" "y"])] }

/-- A non-root commit `H` with parent `p0`. -/
def c4H : CommitObj :=
  { hash := "H", message := "m", author := ⟨"", "", 0⟩, parentHashes := ["p0"] }

/-- A walk `pre1, H, post1` with `CommitTo = H`. -/
def c4WitRepo : Repo := { baseRepo with
  opts := { commitTo := "H" }
  commitObject := fun h => if h = "p0" then some (rootC "p0" []) else none
  patchOf := fun _ _ => .ok ⟨"", []⟩
  logCommits := [some (rootC "pre1" []), some c4H, some (rootC "post1" [okFile "g" "z"])] }

/-! ### Theorems -/

/-- Counterexample to C1: a producer error ("object not found", from the
failed first-parent resolution) aborts the walk, yet `Scan` returns
success and dispatches nothing for the remaining scannable commit. -/
theorem scan_drops_walk_error_cex :
    (walkAux c1CexRepo c1CexRepo.config 0 c1CexRepo.logCommits).ending =
      .errored "object not found" ∧
    (Scan c1CexRepo).result = .ok () ∧ (Scan c1CexRepo).bundles = [] := by
  decide

/-- C1 as amended: the first fatal producer error aborts the walk — the
iteration stops at the failing commit, nothing after it is entered or
dispatched — but `Scan` discards the `ForEach` error (src line 122's
assignment is dead, src line 195 returns nil) and returns success. -/
theorem walk_error_aborts_iteration_but_scan_ok (repo : Repo) (cfg : Config)
    (cc : Nat) (c : CommitObj) (rest : List (Option CommitObj)) (ph : String)
    (tl : List String) :
    (repo.setupTimeoutErr = none → repo.repositoryNil = false →
      (if repo.opts.repoConfig then repo.loadRepoConfigRes else .ok repo.config) =
        .ok cfg →
      repo.opts.commit = "" → repo.opts.filesAtCommit = "" →
      repo.opts.commits = "" → repo.opts.commitsFile = "" →
      repo.logOptsErr = none → repo.logErr = none →
      (Scan repo).result = .ok ()) ∧
    (repo.timeout = false → repo.depthReached cc = false →
      isCommitAllowListed c.hash cfg.allowlistCommits = false →
      c.parentHashes = ph :: tl → repo.commitObject ph = none →
      walkAux repo cfg cc (some c :: rest) =
        ⟨cc + 1, [], [], false, .errored "object not found"⟩) := by
  constructor
  · intro h1 h2 h3 h4 h5 h6 h7 h8 h9
    simp [Scan, h1, h2, h3, h4, h5, h6, h7, h8, h9]
  · intro h1 h2 h3 h4 h5
    simp [walkAux, h1, h2, h3, h4, h5]

/-- Witness for the amended C1 at the concrete failing history. -/
theorem walk_error_aborts_iteration_but_scan_ok_witness :
    (Scan c1CexRepo).result = .ok () ∧
    walkAux c1CexRepo c1CexRepo.config 0
        (some orphanCommit :: [some (rootC "h2" [okFile "f2" "y"])]) =
      ⟨1, [], [], false, .errored "object not found"⟩ :=
  ⟨(walk_error_aborts_iteration_but_scan_ok c1CexRepo c1CexRepo.config 0
      orphanCommit [some (rootC "h2" [okFile "f2" "y"])] "missing" []).1
      rfl rfl rfl rfl rfl rfl rfl rfl rfl,
   (walk_error_aborts_iteration_but_scan_ok c1CexRepo c1CexRepo.config 0
      orphanCommit [some (rootC "h2" [okFile "f2" "y"])] "missing" []).2
      rfl (by decide) (by decide) rfl rfl⟩

/-- Counterexample to C2: when patch generation returns an error the
worker receives a nil patch and its scan panics; the deferred cleanup
releases the slot, but no `recover` exists in the goroutine, so the
panic propagates (the walk does not survive it). -/
theorem worker_panic_propagates_cex :
    (runWorker none genErrCommit c2CexRepo).panicPropagated = true ∧
    (runWorker none genErrCommit c2CexRepo).slotReleased = true ∧
    (walkAux c2CexRepo c2CexRepo.config 0 c2CexRepo.logCommits).crashed = true := by
  decide

/-- C2 as amended: the worker's deferred cleanup (semaphore release and
`wg.Done()`) runs on every exit including a panic, but the worker body
panics exactly when it was handed a nil patch and the panic is then
unrecovered — the goroutine has no `recover`; the only panic isolation
is the producer-side barrier around patch generation, after which the
walk continues with the next commit. -/
theorem worker_cleanup_runs_panic_unrecovered (patch? : Option PatchObj)
    (c parent : CommitObj) (repo : Repo) (cfg : Config) (cc : Nat) (ph : String)
    (tl : List String) (rest : List (Option CommitObj)) :
    ((runWorker patch? c repo).slotReleased = true ∧
      (runWorker patch? c repo).wgDone = true) ∧
    ((runWorker patch? c repo).panicPropagated = true ↔ patch? = none) ∧
    (repo.timeout = false → repo.depthReached cc = false →
      isCommitAllowListed c.hash cfg.allowlistCommits = false →
      c.parentHashes = ph :: tl → repo.commitObject ph = some parent →
      repo.patchOf parent.hash c.hash = .panics →
      walkAux repo cfg cc (some c :: rest) = walkAux repo cfg (cc + 1) rest) := by
  refine ⟨⟨?_, ?_⟩, ?_, ?_⟩
  · cases patch? <;> rfl
  · cases patch? <;> rfl
  · cases patch? <;> simp [runWorker]
  · intro h1 h2 h3 h4 h5 h6
    simp [walkAux, h1, h2, h3, h4, h5, h6]

/-- Witness for the amended C2: cleanup and the producer-side barrier at
a concrete panicking history. -/
theorem worker_cleanup_runs_panic_unrecovered_witness :
    ((runWorker (some ⟨"", []⟩) genErrCommit panicsRepo).slotReleased = true ∧
      (runWorker (some ⟨"", []⟩) genErrCommit panicsRepo).wgDone = true) ∧
    walkAux panicsRepo ⟨[]⟩ 0 [some genErrCommit] = walkAux panicsRepo ⟨[]⟩ 1 [] :=
  ⟨(worker_cleanup_runs_panic_unrecovered (some ⟨"", []⟩) genErrCommit
      (rootC "p0" []) panicsRepo ⟨[]⟩ 0 "p0" [] []).1,
   (worker_cleanup_runs_panic_unrecovered (some ⟨"", []⟩) genErrCommit
      (rootC "p0" []) panicsRepo ⟨[]⟩ 0 "p0" [] []).2.2
      rfl (by decide) (by decide) rfl (by decide) rfl⟩

theorem goSplit_ne_nil (sep : Char) (cs : List Char) : goSplit sep cs ≠ [] := by
  cases cs with
  | nil => simp [goSplit]
  | cons ch cs =>
    simp only [goSplit]
    match goSplit sep cs with
    | [] => simp
    | g :: gs =>
      by_cases h : ch = sep <;> simp [h]

theorem goSplit_length_pos (sep : Char) (cs : List Char) : 0 < (goSplit sep cs).length :=
  List.length_pos.mpr (goSplit_ne_nil sep cs)

theorem parseStagedLoop_isSome (lines : List (List Char)) :
    (parseStagedLoop lines).isSome = true ↔
      ∀ line ∈ lines, line ≠ [] → 2 ≤ (goSplit '\t' line).length := by
  induction lines with
  | nil => simp [parseStagedLoop]
  | cons line rest ih =>
    by_cases hline : line = []
    · subst hline
      simpa [parseStagedLoop] using ih
    · have hlen : (line.length != 0) = true := by
        simp [List.length_eq_zero, hline]
      rcases hsplit : goSplit '\t' line with _ | ⟨p, ps⟩
      · exact absurd hsplit (goSplit_ne_nil '\t' line)
      · rcases ps with _ | ⟨q, qs⟩
        · have : parseStagedLoop (line :: rest) = none := by
            simp [parseStagedLoop, hlen, hsplit]
          simp [this, hline, hsplit]
        · have : parseStagedLoop (line :: rest) =
              match parseStagedLoop rest with
              | none => none
              | some files => some (String.mk q :: files) := by
            simp [parseStagedLoop, hlen, hsplit]
          rw [this]
          rcases hrest : parseStagedLoop rest with _ | files
          · rw [hrest] at ih
            simp only [Option.isSome_none, Bool.false_eq_true, false_iff] at ih ⊢
            intro hall
            exact ih fun l hl => hall l (List.mem_cons_of_mem _ hl)
          · rw [hrest] at ih
            simp only [Option.isSome_some, true_iff] at ih
            simp only [Option.isSome_some, true_iff]
            intro l hl
            rcases List.mem_cons.mp hl with h | h
            · subst h
              intro _
              simp [hsplit]
            · exact ih l h

/-- C10: a nonempty porcelain line without a tab makes `getStagedChanges`
index out of range (a panic): the guard only requires the tab-split to be
nonempty, which it always is. Parsing is total exactly when every
nonempty line of the output splits into at least two tab-separated
fields (that is, contains at least one tab). -/
theorem getStagedChanges_panics_on_tabless_line :
    parseStagedOutput "M secret.txt" = none ∧
    ∀ output : String, (parseStagedOutput output).isSome = true ↔
      ∀ line ∈ goSplit '\n' output.toList, line ≠ [] →
        2 ≤ (goSplit '\t' line).length := by
  constructor
  · decide
  · intro output
    exact parseStagedLoop_isSome (goSplit '\n' output.toList)

/-- C6: on a root commit, `scanCommitPatches` dispatches exactly the
bundles of `scanFilesAtCommit` and returns the same result: the root
branch delegates, and the parent iteration is empty. -/
theorem scanCommitPatches_root_eq_scanFilesAtCommit (c : CommitObj) (repo : Repo)
    (hroot : c.parentHashes = []) :
    scanCommitPatches c repo = scanFilesAtCommit c repo := by
  unfold scanCommitPatches
  rw [hroot]
  simp only [List.isEmpty_nil, if_true]
  rcases h : scanFilesAtCommit c repo with ⟨bs, e?⟩
  rcases e? with _ | e <;> simp [parentsLoop]

/-- Witness for C6 at a concrete root commit. -/
theorem scanCommitPatches_root_eq_scanFilesAtCommit_witness :
    scanCommitPatches (rootC "A" [okFile "f" "s"]) baseRepo =
      scanFilesAtCommit (rootC "A" [okFile "f" "s"]) baseRepo :=
  scanCommitPatches_root_eq_scanFilesAtCommit (rootC "A" [okFile "f" "s"]) baseRepo rfl

theorem mem_scanEmptyLoop_commit (repo : Repo) :
    ∀ (fns : List String) (b : Bundle),
      b ∈ (scanEmptyLoop repo fns).1 → b.commit = emptyCommit := by
  intro fns
  induction fns with
  | nil => simp [scanEmptyLoop]
  | cons fn fns ih =>
    intro b hb
    simp only [scanEmptyLoop] at hb
    split at hb
    · exact ih b hb
    · split at hb
      · simp at hb
      · rcases List.mem_cons.mp hb with h | h
        · rw [h]
        · exact ih b h

theorem mem_stagedLoop_commit (repo : Repo) (c : CommitObj) :
    ∀ (fns : List String) (b : Bundle),
      b ∈ (stagedLoop repo c fns).1 → b.commit = c := by
  intro fns
  induction fns with
  | nil => simp [stagedLoop]
  | cons fn fns ih =>
    intro b hb
    simp only [stagedLoop] at hb
    split at hb
    · exact ih b hb
    · split at hb
      · simp at hb
      · split at hb
        · simp at hb
        · rcases List.mem_cons.mp hb with h | h
          · rw [h]
          · exact ih b h

/-- C7: every bundle a staged scan dispatches — on the empty-repo
fallback or the normal staged-diff path — carries the sentinel commit:
zero hash, the staged-changes message, empty author name and email, and
the Unix epoch (UTC) timestamp. -/
theorem scanUncommitted_bundles_cases (repo : Repo) :
    (scanUncommitted repo).bundles = [] ∨
      (∃ fns, (scanUncommitted repo).bundles = (scanEmptyLoop repo fns).1) ∨
      (∃ c0 fns, (scanUncommitted repo).bundles =
        (stagedLoop repo (sentinelize c0) fns).1) := by
  unfold scanUncommitted scanEmpty
  dsimp only
  repeat' split
  all_goals
    first
    | exact Or.inl rfl
    | exact Or.inr (Or.inl ⟨_, rfl⟩)
    | exact Or.inr (Or.inr ⟨_, _, rfl⟩)

theorem scanUncommitted_bundles_sentinel (repo : Repo) (b : Bundle)
    (hb : b ∈ (scanUncommitted repo).bundles) :
    b.commit.hash = zeroHash ∧ b.commit.message = "***STAGED CHANGES***" ∧
      b.commit.author.name = "" ∧ b.commit.author.email = "" ∧
      b.commit.author.whenSec = 0 := by
  rcases scanUncommitted_bundles_cases repo with h | ⟨fns, h⟩ | ⟨c0, fns, h⟩
  · rw [h] at hb
    simp at hb
  · rw [h] at hb
    have hc := mem_scanEmptyLoop_commit repo fns b hb
    rw [hc]
    simp [emptyCommit]
  · rw [h] at hb
    have hc := mem_stagedLoop_commit repo (sentinelize c0) fns b hb
    rw [hc]
    simp [sentinelize]

/-- Witness for C7: the bundle of a concrete staged scan. -/
theorem scanUncommitted_bundles_sentinel_witness :
    stagedBundle.commit.hash = zeroHash ∧
      stagedBundle.commit.message = "***STAGED CHANGES***" ∧
      stagedBundle.commit.author.name = "" ∧ stagedBundle.commit.author.email = "" ∧
      stagedBundle.commit.author.whenSec = 0 :=
  scanUncommitted_bundles_sentinel stagedRepo stagedBundle (by decide)

theorem string_join_cons (s : String) (ss : List String) :
    String.join (s :: ss) = s ++ String.join ss := by
  rw [String.join_eq, String.join_eq]
  rfl

theorem goDiffContents_eq_insertionsJoined (ds : List DiffSeg) :
    goDiffContents ds = insertionsJoined ds := by
  induction ds with
  | nil => rfl
  | cons d ds ih =>
    by_cases h : d.typ = .insert <;>
      simp [goDiffContents, insertionsJoined, string_join_cons, h, ih]

/-- C8: on the normal staged-diff path, the bundle dispatched for a file
that opens and copies fine has as content the concatenation, in order,
of the text of every insertion segment of the semantic-cleanup diff
between the previous contents (empty when the file is absent at HEAD,
per `stagedPrevResolved`) and the current worktree contents, each
insertion followed by a newline. -/
theorem stagedLoop_insertions_content (repo : Repo) (c : CommitObj) (fn : String)
    (fns : List String) (wf : WtFile) (cur prev fname : String)
    (hopen : repo.wtOpen fn = some wf) (hcopy : wf.copyRes = .ok cur)
    (hprev : stagedPrevResolved c fn wf.name = .ok (prev, fname)) :
    stagedLoop repo c (fn :: fns) =
      ({ commit := c, content := insertionsJoined (repo.dmpDiff prev cur)
         filePath := fname, scanType := .uncommittedScan } :: (stagedLoop repo c fns).1,
       (stagedLoop repo c fns).2) := by
  simp [stagedLoop, hopen, hcopy, hprev, goDiffContents_eq_insertionsJoined]

/-- Witness for C8 at the concrete staged repository. -/
theorem stagedLoop_insertions_content_witness :
    stagedLoop stagedRepo (sentinelize headCommit) ["foo.txt"] =
      ({ commit := sentinelize headCommit
         content := insertionsJoined
           (stagedRepo.dmpDiff "a\nb\n" "a\nSECRET\nb\n")
         filePath := "foo.txt", scanType := .uncommittedScan }
        :: (stagedLoop stagedRepo (sentinelize headCommit) []).1,
       (stagedLoop stagedRepo (sentinelize headCommit) []).2) :=
  stagedLoop_insertions_content stagedRepo (sentinelize headCommit) "foo.txt" []
    ⟨"foo.txt", .ok "a\nSECRET\nb\n"⟩ "a\nSECRET\nb\n" "a\nb\n" "foo.txt"
    (by decide) (by decide) (by decide)

/-- C9: in both staged paths a file whose worktree open fails is skipped
silently (the loop continues with no bundle for it), while a copy error
or a HEAD-tree contents error aborts the loop returning that error. -/
theorem staged_open_skipped_io_aborts (repo : Repo) (c : CommitObj) (fn : String)
    (fns : List String) (wf : WtFile) (e : Err) (cur : String) :
    (repo.wtOpen fn = none → stagedLoop repo c (fn :: fns) = stagedLoop repo c fns) ∧
    (repo.wtOpen fn = some wf → wf.copyRes = .error e →
      stagedLoop repo c (fn :: fns) = ([], some e)) ∧
    (repo.wtOpen fn = some wf → wf.copyRes = .ok cur →
      stagedPrevResolved c fn wf.name = .error e →
      stagedLoop repo c (fn :: fns) = ([], some e)) ∧
    (repo.wtOpen fn = none → scanEmptyLoop repo (fn :: fns) = scanEmptyLoop repo fns) ∧
    (repo.wtOpen fn = some wf → wf.copyRes = .error e →
      scanEmptyLoop repo (fn :: fns) = ([], some e)) := by
  refine ⟨fun h1 => ?_, fun h1 h2 => ?_, fun h1 h2 h3 => ?_, fun h1 => ?_, fun h1 h2 => ?_⟩
  · simp [stagedLoop, h1]
  · simp [stagedLoop, h1, h2]
  · simp [stagedLoop, h1, h2, h3]
  · simp [scanEmptyLoop, h1]
  · simp [scanEmptyLoop, h1, h2]

/-- Witness for C9: the skip and both abort behaviours at a concrete
repository. -/
theorem staged_open_skipped_io_aborts_witness :
    (stagedLoop c9Repo c9Commit ["gone"] = stagedLoop c9Repo c9Commit []) ∧
    (stagedLoop c9Repo c9Commit ["bad"] = ([], some "copy boom")) ∧
    (stagedLoop c9Repo c9Commit ["prevbad"] = ([], some "prev boom")) ∧
    (scanEmptyLoop c9Repo ["gone"] = scanEmptyLoop c9Repo []) ∧
    (scanEmptyLoop c9Repo ["bad"] = ([], some "copy boom")) :=
  ⟨(staged_open_skipped_io_aborts c9Repo c9Commit "gone" [] ⟨"", .ok ""⟩ "" "").1
      (by decide),
   (staged_open_skipped_io_aborts c9Repo c9Commit "bad" [] ⟨"bad", .error "copy boom"⟩
      "copy boom" "").2.1 (by decide) (by decide),
   (staged_open_skipped_io_aborts c9Repo c9Commit "prevbad" []
      ⟨"prevbad", .ok "cur"⟩ "prev boom" "cur").2.2.1 (by decide) (by decide) (by decide),
   (staged_open_skipped_io_aborts c9Repo c9Commit "gone" [] ⟨"", .ok ""⟩ "" "").2.2.2.1
      (by decide),
   (staged_open_skipped_io_aborts c9Repo c9Commit "bad" [] ⟨"bad", .error "copy boom"⟩
      "copy boom" "").2.2.2.2 (by decide) (by decide)⟩

theorem mem_chunksLoop_commit (repo : Repo) (base : Bundle) (f : FilePatch) :
    ∀ (chs : List Chunk) (b : Bundle),
      b ∈ chunksLoop repo base f chs → b.commit = base.commit := by
  intro chs
  induction chs with
  | nil => simp [chunksLoop]
  | cons ch chs ih =>
    intro b hb
    simp only [chunksLoop] at hb
    split at hb
    · rcases List.mem_cons.mp hb with h | h
      · rw [h]
      · exact ih b h
    · exact ih b hb

theorem mem_filePatchesLoop_commit (repo : Repo) (base : Bundle) :
    ∀ (fps : List FilePatch) (b : Bundle),
      b ∈ filePatchesLoop repo base fps → b.commit = base.commit := by
  intro fps
  induction fps with
  | nil => simp [filePatchesLoop]
  | cons f fs ih =>
    intro b hb
    simp only [filePatchesLoop] at hb
    split at hb
    · simp at hb
    · split at hb
      · exact ih b hb
      · rcases List.mem_append.mp hb with h | h
        · exact mem_chunksLoop_commit repo base f f.chunks b h
        · exact ih b h

theorem mem_scanPatch_commit (p : PatchObj) (c : CommitObj) (repo : Repo) (b : Bundle)
    (hb : b ∈ scanPatch p c repo) : b.commit = c :=
  mem_filePatchesLoop_commit repo _ p.filePatches b hb

theorem mem_filesLoop_commit (repo : Repo) (c : CommitObj) :
    ∀ (fs : List FileObj) (b : Bundle),
      b ∈ (filesLoop repo c fs).1 → b.commit = c := by
  intro fs
  induction fs with
  | nil => simp [filesLoop]
  | cons f fs ih =>
    intro b hb
    simp only [filesLoop] at hb
    split at hb
    · exact ih b hb
    · split at hb
      · simp at hb
      · split at hb
        · simp at hb
        · rcases List.mem_cons.mp hb with h | h
          · rw [h]
          · exact ih b h

theorem mem_scanFilesAtCommit_commit (c : CommitObj) (repo : Repo) (b : Bundle)
    (hb : b ∈ (scanFilesAtCommit c repo).1) : b.commit = c := by
  unfold scanFilesAtCommit at hb
  split at hb
  · simp at hb
  · exact mem_filesLoop_commit repo c c.files b hb

theorem mem_runWorker_commit (patch? : Option PatchObj) (c : CommitObj) (repo : Repo)
    (b : Bundle) (hb : b ∈ (runWorker patch? c repo).bundles) : b.commit = c := by
  cases patch? with
  | none => simp [runWorker] at hb
  | some p => exact mem_scanPatch_commit p c repo b hb

theorem mem_walkAux_not_allowlisted (repo : Repo) (cfg : Config) :
    ∀ (cs : List (Option CommitObj)) (cc : Nat) (b : Bundle),
      b ∈ (walkAux repo cfg cc cs).bundles →
      isCommitAllowListed b.commit.hash cfg.allowlistCommits = false := by
  intro cs
  induction cs with
  | nil =>
    intro cc b hb
    simp [walkAux] at hb
  | cons c? rest ih =>
    intro cc b hb
    match c? with
    | none => simp [walkAux] at hb
    | some c =>
      simp only [walkAux] at hb
      split at hb
      · simp at hb
      · split at hb
        · exact ih cc b hb
        · rename_i hallow
          have hcfalse : isCommitAllowListed c.hash cfg.allowlistCommits = false := by
            simpa using hallow
          split at hb
          · -- root commit
            split at hb
            · dsimp only at hb
              rw [mem_scanFilesAtCommit_commit c repo b (by rw [‹scanFilesAtCommit c repo = _›]; exact hb)]
              exact hcfalse
            · dsimp only at hb
              rcases List.mem_append.mp hb with h | h
              · rw [mem_scanFilesAtCommit_commit c repo b (by rw [‹scanFilesAtCommit c repo = _›]; exact h)]
                exact hcfalse
              · exact ih (cc + 1) b h
          · -- non-root commit
            split at hb
            · simp at hb
            · split at hb
              · exact ih (cc + 1) b hb
              · split at hb
                · exact ih (cc + 1) b hb
                · split at hb
                  · dsimp only at hb
                    rw [mem_runWorker_commit none c repo b hb]
                    exact hcfalse
                  · dsimp only at hb
                    rcases List.mem_append.mp hb with h | h
                    · rw [mem_runWorker_commit none c repo b h]
                      exact hcfalse
                    · exact ih (cc + 1) b h
                · split at hb
                  · dsimp only at hb
                    rw [mem_runWorker_commit (some _) c repo b hb]
                    exact hcfalse
                  · dsimp only at hb
                    rcases List.mem_append.mp hb with h | h
                    · rw [mem_runWorker_commit (some _) c repo b h]
                      exact hcfalse
                    · exact ih (cc + 1) b h

/-- Counterexample to C3: in single-commit mode (`--commit=A`) the
allowlist is never consulted — `scanCommit`/`scanCommitPatches` have no
allowlist check — so a bundle whose commit hash is the allowlisted `A`
is dispatched. -/
theorem single_commit_mode_dispatches_allowlisted_cex :
    isCommitAllowListed "A" c3CexRepo.config.allowlistCommits = true ∧
    (Scan c3CexRepo).bundles.map (fun b => b.commit.hash) = ["A"] := by
  decide

/-- C3 as amended: only the history walk consults the commit allowlist;
in history-walk mode no bundle whose commit hash is allowlisted (under
the effective config) is ever dispatched. -/
theorem history_mode_never_dispatches_allowlisted (repo : Repo) (cfg : Config)
    (b : Bundle) (hsetup : repo.setupTimeoutErr = none)
    (hnil : repo.repositoryNil = false)
    (hcfg : (if repo.opts.repoConfig then repo.loadRepoConfigRes else .ok repo.config) =
      .ok cfg)
    (h1 : repo.opts.commit = "") (h2 : repo.opts.filesAtCommit = "")
    (h3 : repo.opts.commits = "") (h4 : repo.opts.commitsFile = "")
    (h5 : repo.logOptsErr = none) (h6 : repo.logErr = none)
    (hb : b ∈ (Scan repo).bundles) :
    isCommitAllowListed b.commit.hash cfg.allowlistCommits = false := by
  have hbw : (Scan repo).bundles = (walkAux repo cfg 0 repo.logCommits).bundles := by
    simp [Scan, hsetup, hnil, hcfg, h1, h2, h3, h4, h5, h6]
  rw [hbw] at hb
  exact mem_walkAux_not_allowlisted repo cfg repo.logCommits 0 b hb

/-- Witness for the amended C3: the bundle the walk of `c3WitRepo`
dispatches (for `h2`, past the allowlisted `h1`) is not allowlisted. -/
theorem history_mode_never_dispatches_allowlisted_witness :
    isCommitAllowListed h2Bundle.commit.hash c3WitRepo.config.allowlistCommits = false :=
  history_mode_never_dispatches_allowlisted c3WitRepo c3WitRepo.config h2Bundle
    rfl rfl rfl rfl rfl rfl rfl rfl rfl (by decide)

theorem walkAux_skip_allowlisted (repo : Repo) (cfg : Config) (cc : Nat)
    (c : CommitObj) (rest : List (Option CommitObj))
    (ht : repo.timeout = false) (hd : repo.depthReached cc = false)
    (ha : isCommitAllowListed c.hash cfg.allowlistCommits = true) :
    walkAux repo cfg cc (some c :: rest) = walkAux repo cfg cc rest := by
  simp [walkAux, ht, hd, ha]

theorem walkAux_passes_step (repo : Repo) (cfg : Config) (cc : Nat)
    (c : CommitObj) (rest : List (Option CommitObj))
    (ht : repo.timeout = false) (hd : repo.depthReached cc = false)
    (ha : isCommitAllowListed c.hash cfg.allowlistCommits = false)
    (hp : passesThrough repo cfg c = true) :
    (walkAux repo cfg cc (some c :: rest)).cc = (walkAux repo cfg (cc + 1) rest).cc ∧
    (walkAux repo cfg cc (some c :: rest)).ending =
      (walkAux repo cfg (cc + 1) rest).ending ∧
    (∀ x ∈ (walkAux repo cfg cc (some c :: rest)).dispatched,
      x = c.hash ∨ x ∈ (walkAux repo cfg (cc + 1) rest).dispatched) ∧
    ∀ x ∈ (walkAux repo cfg (cc + 1) rest).dispatched,
      x ∈ (walkAux repo cfg cc (some c :: rest)).dispatched := by
  have hto : (c.hash == repo.opts.commitTo) = false := by
    have := hp
    unfold passesThrough at this
    rw [ha] at this
    simp only [Bool.false_or, Bool.and_eq_true, bne_iff_ne] at this
    simpa using this.1
  unfold passesThrough at hp
  rw [ha] at hp
  simp only [Bool.false_or, Bool.and_eq_true] at hp
  rcases hpar : c.parentHashes with _ | ⟨ph, tl⟩
  · -- root commit: the file scan succeeds
    rw [hpar] at hp
    simp only at hp
    rcases hscan : scanFilesAtCommit c repo with ⟨bs, e?⟩
    have he : e? = none := by
      have := hp.2
      rw [hscan] at this
      simpa using this
    subst he
    simp only [walkAux, ht, hd, ha, hpar, hscan]
    refine ⟨rfl, rfl, fun x hx => by simpa using hx, fun x hx => by simp [hx]⟩
  · -- non-root commit: the first parent resolves
    rw [hpar] at hp
    simp only at hp
    rcases hobj : repo.commitObject ph with _ | parent
    · rw [hobj] at hp
      simp at hp
    · rcases hpatch : repo.patchOf parent.hash c.hash with p | _ | _
      · simp only [walkAux, ht, hd, ha, hpar, hobj, hpatch, hto]
        refine ⟨rfl, rfl, fun x hx => by simpa using hx, fun x hx => by simp [hx]⟩
      · simp only [walkAux, ht, hd, ha, hpar, hobj, hpatch, hto]
        refine ⟨rfl, rfl, fun x hx => by simpa using hx, fun x hx => by simp [hx]⟩
      · simp only [walkAux, ht, hd, ha, hpar, hobj, hpatch]
        refine ⟨rfl, rfl, fun x hx => Or.inr hx, fun x hx => hx⟩

theorem walkAux_at_depth (repo : Repo) (cfg : Config) (k : Nat) (hk : 0 < k)
    (hdepth : repo.opts.depth = (k : Int)) (ht : repo.timeout = false)
    (cs : List (Option CommitObj)) :
    (walkAux repo cfg k cs).cc = k ∧
      ((walkAux repo cfg k cs).ending = .stopped ∨
        (walkAux repo cfg k cs).ending = .completed) := by
  have hd : repo.depthReached k = true := by
    simp only [Repo.depthReached, hdepth]
    simp only [bne_iff_ne, ne_eq, Bool.and_eq_true, decide_eq_true_eq, beq_iff_eq]
    constructor
    · simpa using Nat.pos_iff_ne_zero.mp hk
    · trivial
  rcases cs with _ | ⟨c?, rest⟩
  · simp [walkAux]
  · rcases c? with _ | c
    · simp [walkAux]
    · simp [walkAux, ht, hd]

theorem walkAux_depth_exact (repo : Repo) (cfg : Config) (k : Nat) (hk : 0 < k)
    (hdepth : repo.opts.depth = (k : Int)) (ht : repo.timeout = false) :
    ∀ (cs : List CommitObj) (cc : Nat), cc < k →
      (∀ c ∈ cs, passesThrough repo cfg c = true) →
      k - cc ≤ countNonAllowlisted cfg cs →
      (walkAux repo cfg cc (cs.map some)).cc = k ∧
        ((walkAux repo cfg cc (cs.map some)).ending = .stopped ∨
          (walkAux repo cfg cc (cs.map some)).ending = .completed) := by
  intro cs
  induction cs with
  | nil =>
    intro cc hcc _ hcount
    simp [countNonAllowlisted] at hcount
    omega
  | cons c cs ih =>
    intro cc hcc hpass hcount
    have hne : ((k : Int) == (cc : Int)) = false := by
      simp only [beq_eq_false_iff_ne, ne_eq, Int.natCast_inj]
      omega
    have hd : repo.depthReached cc = false := by
      simp [Repo.depthReached, hdepth, hne]
    by_cases ha : isCommitAllowListed c.hash cfg.allowlistCommits = true
    · have hcnt : countNonAllowlisted cfg (c :: cs) = countNonAllowlisted cfg cs := by
        simp [countNonAllowlisted, List.filter_cons, ha]
      rw [List.map_cons, walkAux_skip_allowlisted repo cfg cc c (cs.map some) ht hd ha]
      exact ih cc hcc (fun x hx => hpass x (List.mem_cons_of_mem _ hx))
        (by rw [hcnt] at hcount; exact hcount)
    · have ha' : isCommitAllowListed c.hash cfg.allowlistCommits = false := by
        simpa using ha
      have hcnt : countNonAllowlisted cfg (c :: cs) = countNonAllowlisted cfg cs + 1 := by
        simp [countNonAllowlisted, List.filter_cons, ha']
      have hstep := walkAux_passes_step repo cfg cc c (cs.map some) ht hd ha'
        (hpass c (List.mem_cons_self c cs))
      rw [List.map_cons]
      rcases Nat.lt_or_ge (cc + 1) k with hlt | hge
      · have hrec := ih (cc + 1) hlt (fun x hx => hpass x (List.mem_cons_of_mem _ hx))
          (by rw [hcnt] at hcount; omega)
        exact ⟨hstep.1.trans hrec.1, by rw [hstep.2.1]; exact hrec.2⟩
      · have hk1 : cc + 1 = k := by omega
        have hat := walkAux_at_depth repo cfg k hk hdepth ht (cs.map some)
        rw [hk1] at hstep
        exact ⟨hstep.1.trans hat.1, by rw [hstep.2.1]; exact hat.2⟩

/-- Counterexample to C5: `Depth = 2` over a history of three
non-allowlisted commits, but the first commit's parent resolution fails:
the walk aborts after entering one commit, so the counter increments by
1, not by the claimed 2. -/
theorem depth_not_exact_on_walk_error_cex :
    c5CexRepo.opts.depth = (2 : Int) ∧
    countNonAllowlisted c5CexRepo.config
      [orphanCommit, rootC "h2" [], rootC "h3" []] = 3 ∧
    c5CexRepo.logCommits = ([orphanCommit, rootC "h2" [], rootC "h3" []]).map some ∧
    (Scan c5CexRepo).commitsAdded = 1 := by
  decide

/-- C5 as amended: during a history walk with `Depth = k` (k > 0) over a
history with at least k non-allowlisted commits, provided the timeout
never fires and every commit passes through cleanly (no hash equals
`CommitTo`, root file scans succeed, first parents resolve), exactly k
commits are entered — the counter increments by exactly k — and the walk
terminates (stopping at the depth check once the count reaches k, or
with the history exhausted), with `Scan` returning success. -/
theorem depth_caps_commits_entered (repo : Repo) (cfg : Config) (k : Nat)
    (cs : List CommitObj) (hk : 0 < k) (hdepth : repo.opts.depth = (k : Int))
    (ht : repo.timeout = false)
    (hsetup : repo.setupTimeoutErr = none) (hnil : repo.repositoryNil = false)
    (hcfg : (if repo.opts.repoConfig then repo.loadRepoConfigRes else .ok repo.config) =
      .ok cfg)
    (h1 : repo.opts.commit = "") (h2 : repo.opts.filesAtCommit = "")
    (h3 : repo.opts.commits = "") (h4 : repo.opts.commitsFile = "")
    (h5 : repo.logOptsErr = none) (h6 : repo.logErr = none)
    (hlog : repo.logCommits = cs.map some)
    (hpass : ∀ c ∈ cs, passesThrough repo cfg c = true)
    (hcount : k ≤ countNonAllowlisted cfg cs) :
    (Scan repo).commitsAdded = k ∧ (Scan repo).result = .ok () := by
  have hadd : (Scan repo).commitsAdded = (walkAux repo cfg 0 repo.logCommits).cc := by
    simp [Scan, hsetup, hnil, hcfg, h1, h2, h3, h4, h5, h6]
  have hres : (Scan repo).result = .ok () := by
    simp [Scan, hsetup, hnil, hcfg, h1, h2, h3, h4, h5, h6]
  refine ⟨?_, hres⟩
  rw [hadd, hlog]
  exact (walkAux_depth_exact repo cfg k hk hdepth ht cs 0 hk hpass
    (by simpa using hcount)).1

/-- Witness for the amended C5: depth 2 over three clean root commits
enters exactly two. -/
theorem depth_caps_commits_entered_witness :
    (Scan c5WitRepo).commitsAdded = 2 ∧ (Scan c5WitRepo).result = .ok () :=
  depth_caps_commits_entered c5WitRepo c5WitRepo.config 2
    [rootC "c1" [], rootC "c2" [], rootC "c3" []] (by decide) (by decide) rfl rfl rfl
    rfl rfl rfl rfl rfl rfl rfl rfl (by decide) (by decide)

theorem walkAux_commitTo_stops (repo : Repo) (cfg : Config) (H parent : CommitObj)
    (p : PatchObj) (ph : String) (tl : List String)
    (ht : repo.timeout = false) (hdepth : repo.opts.depth = 0)
    (hHallow : isCommitAllowListed H.hash cfg.allowlistCommits = false)
    (hHpar : H.parentHashes = ph :: tl)
    (hHobj : repo.commitObject ph = some parent)
    (hHpatch : repo.patchOf parent.hash H.hash = .ok p)
    (hHto : (H.hash == repo.opts.commitTo) = true) :
    ∀ (pre : List CommitObj) (post : List (Option CommitObj)) (cc : Nat),
      (∀ c ∈ pre, passesThrough repo cfg c = true) →
      (walkAux repo cfg cc (pre.map some ++ some H :: post)).ending = .stopped ∧
      H.hash ∈ (walkAux repo cfg cc (pre.map some ++ some H :: post)).dispatched ∧
      ∀ x ∈ (walkAux repo cfg cc (pre.map some ++ some H :: post)).dispatched,
        x ∈ pre.map CommitObj.hash ++ [H.hash] := by
  have hd : ∀ i : Nat, repo.depthReached i = false := fun i => by
    simp [Repo.depthReached, hdepth]
  intro pre
  induction pre with
  | nil =>
    intro post cc _
    simp only [List.map_nil, List.nil_append]
    simp only [walkAux, ht, hd, hHallow, hHpar, hHobj, hHpatch, hHto]
    simp
  | cons c pre ih =>
    intro post cc hpass
    simp only [List.map_cons, List.cons_append]
    by_cases ha : isCommitAllowListed c.hash cfg.allowlistCommits = true
    · rw [walkAux_skip_allowlisted repo cfg cc c _ ht (hd cc) ha]
      have hrec := ih post cc (fun x hx => hpass x (List.mem_cons_of_mem _ hx))
      exact ⟨hrec.1, hrec.2.1, fun x hx =>
        List.mem_cons_of_mem _ (hrec.2.2 x hx)⟩
    · have ha' : isCommitAllowListed c.hash cfg.allowlistCommits = false := by
        simpa using ha
      have hstep := walkAux_passes_step repo cfg cc c (pre.map some ++ some H :: post)
        ht (hd cc) ha' (hpass c (List.mem_cons_self c pre))
      have hrec := ih post (cc + 1) (fun x hx => hpass x (List.mem_cons_of_mem _ hx))
      refine ⟨hstep.2.1.trans hrec.1, hstep.2.2.2 H.hash hrec.2.1, fun x hx => ?_⟩
      rcases hstep.2.2.1 x hx with h | h
      · rw [h]
        simp
      · have := hrec.2.2 x h
        simp only [List.cons_append, List.mem_cons]
        right
        simpa using this

/-- Counterexample to C4: `CommitTo = "h1"` where `h1` is a root commit
occurring first in walk order. The root path never checks `CommitTo`, so
the walk dispatches `h2` after `h1` instead of stopping. -/
theorem commitTo_root_does_not_stop_cex :
    c4CexRepo.opts.commitTo = "h1" ∧
    (walkAux c4CexRepo c4CexRepo.config 0 c4CexRepo.logCommits).dispatched =
      ["h1", "h2"] := by
  decide

/-- C4 as amended: during a history walk with `CommitTo = H.hash`, with
no timeout and no depth cap, where every commit before H passes through
cleanly (not hash-equal to `CommitTo`), and H itself is a
non-allowlisted, non-root commit whose first parent resolves and whose
patch generates, H is dispatched, the walk stops there, and every
dispatched hash belongs to the commits up to and including H — nothing
after H in walk order is dispatched. -/
theorem commitTo_dispatches_H_then_stops (repo : Repo) (cfg : Config)
    (H parent : CommitObj) (p : PatchObj) (ph : String) (tl : List String)
    (pre : List CommitObj) (post : List (Option CommitObj))
    (ht : repo.timeout = false) (hdepth : repo.opts.depth = 0)
    (hHallow : isCommitAllowListed H.hash cfg.allowlistCommits = false)
    (hHpar : H.parentHashes = ph :: tl)
    (hHobj : repo.commitObject ph = some parent)
    (hHpatch : repo.patchOf parent.hash H.hash = .ok p)
    (hHto : (H.hash == repo.opts.commitTo) = true)
    (hpre : ∀ c ∈ pre, passesThrough repo cfg c = true) :
    H.hash ∈ (walkAux repo cfg 0 (pre.map some ++ some H :: post)).dispatched ∧
    (walkAux repo cfg 0 (pre.map some ++ some H :: post)).ending = .stopped ∧
    ∀ x ∈ (walkAux repo cfg 0 (pre.map some ++ some H :: post)).dispatched,
      x ∈ pre.map CommitObj.hash ++ [H.hash] := by
  have h := walkAux_commitTo_stops repo cfg H parent p ph tl ht hdepth hHallow
    hHpar hHobj hHpatch hHto pre post 0 hpre
  exact ⟨h.2.1, h.1, h.2.2⟩

/-- Witness for the amended C4: the walk `pre1, H, post1` with
`CommitTo = H` dispatches H and stops; `post1` is never dispatched. -/
theorem commitTo_dispatches_H_then_stops_witness :
    c4H.hash ∈ (walkAux c4WitRepo c4WitRepo.config 0
      (([rootC "pre1" []]).map some ++ some c4H ::
        [some (rootC "post1" [okFile "g" "z"])])).dispatched ∧
    (walkAux c4WitRepo c4WitRepo.config 0
      (([rootC "pre1" []]).map some ++ some c4H ::
        [some (rootC "post1" [okFile "g" "z"])])).ending = .stopped ∧
    ∀ x ∈ (walkAux c4WitRepo c4WitRepo.config 0
      (([rootC "pre1" []]).map some ++ some c4H ::
        [some (rootC "post1" [okFile "g" "z"])])).dispatched,
      x ∈ ([rootC "pre1" []]).map CommitObj.hash ++ [c4H.hash] :=
  commitTo_dispatches_H_then_stops c4WitRepo c4WitRepo.config c4H (rootC "p0" [])
    ⟨"", []⟩ "p0" [] [rootC "pre1" []] [some (rootC "post1" [okFile "g" "z"])]
    rfl rfl (by decide) rfl (by decide) rfl (by decide) (by decide)

end Gitleaks
